import Mathlib

/-!
Formal model of the data-parsers package (rosbag_parser.py, dict_utils.py,
units.py), shallowly embedded in Lean.

Modelling conventions:
* Python floats are modelled as exact rationals; every numeric literal used by
  the claims (1.0, 1e-9, the SI factors, the sentinel -1717.0) is exactly
  representable, so no claim hinges on floating rounding.
* numpy arrays are modelled as a shape together with a row-major flat data
  list.
* Python exceptions are modelled with the explicit error type PyErr; a
  function that can raise returns Except PyErr.
* Python dicts are modelled as insertion-ordered association lists; updating
  an existing key keeps its position, a new key is appended, matching dict
  assignment semantics.
-/

/-- The Python exception kinds raised by the modelled code paths. -/
inductive PyErr where
  | keyError
  | valueError
  | attributeError
  | typeError
  | indexError
  | sharedKeyError
  deriving DecidableEq

/-- Model of a numpy ndarray: a shape and the row-major flattened data. -/
structure NpArray where
  shape : List Nat
  data : List ℚ
  deriving DecidableEq

/-- numpy .size: the number of elements, the product of the shape. -/
def NpArray.size (a : NpArray) : Nat := a.shape.prod

/-! Association-list model of Python dicts (generic in the value type). -/

/-- Python d.get(key) / d[key]: the value at the first occurrence of key. -/
def lookupA {α : Type} : List (String × α) → String → Option α
  | [], _ => none
  | (k, v) :: rest, key => if k = key then some v else lookupA rest key

/-- Python d[key] = v: update the first occurrence in place, else append. -/
def setA {α : Type} : List (String × α) → String → α → List (String × α)
  | [], key, v => [(key, v)]
  | (k, w) :: rest, key, v =>
      if k = key then (k, v) :: rest else (k, w) :: setA rest key v

/-- The key list of a dict, in insertion order. -/
def keysOf {α : Type} (d : List (String × α)) : List String := d.map Prod.fst

/-- Python a | b (and a |= b): set every entry of b into a, b wins. -/
def unionA {α : Type} (a b : List (String × α)) : List (String × α) :=
  b.foldl (fun acc p => setA acc p.1 p.2) a

/-! numpy operations used by the parsers. -/

/-- numpy atleast_2d: 0-d becomes (1,1), 1-d (n) becomes (1,n). -/
def atleast_2d (a : NpArray) : NpArray :=
  match a.shape with
  | [] => { shape := [1, 1], data := a.data }
  | [n] => { shape := [1, n], data := a.data }
  | _ => a

/-- numpy concatenate along axis 0 (also np.append with axis=0): the ranks
and the trailing shapes must agree, otherwise a ValueError is raised. -/
def npAppendAxis0 (a b : NpArray) : Except PyErr NpArray :=
  if a.shape.length = b.shape.length ∧ a.shape.drop 1 = b.shape.drop 1
      ∧ 1 ≤ a.shape.length then
    .ok { shape := (a.shape.headD 0 + b.shape.headD 0) :: a.shape.drop 1,
          data := a.data ++ b.data }
  else .error .valueError

/-- numpy row_stack / vstack: atleast_2d both arguments, then concatenate
along axis 0. -/
def np_row_stack (a b : NpArray) : Except PyErr NpArray :=
  npAppendAxis0 (atleast_2d a) (atleast_2d b)

/-- The expression -1717.0 * np.ones(shape) from rosbag_parser: an array of
the given shape filled with the sentinel value. -/
def sentinel_fill (shape : List Nat) : NpArray :=
  { shape := shape, data := List.replicate shape.prod (-1717 : ℚ) }

/-- Elementwise multiplication of an array by a scalar (value * multiplier). -/
def npMul (a : NpArray) (m : ℚ) : NpArray :=
  { shape := a.shape, data := a.data.map (· * m) }

/-! The leaf accumulators of rosbag_parser.py. -/

/-- rosbag_parser.parse_scalar: seed a one-element array, or np.append the
value (np.append without an axis flattens, giving a 1-d array). -/
def parse_scalar (value : ℚ) (in_array : Option NpArray) : NpArray :=
  match in_array with
  | none => { shape := [1], data := [value] }
  | some a => { shape := [a.size + 1], data := a.data ++ [value] }

/-- rosbag_parser.parse_time_stamp: combine seconds and nanoseconds as
secs + nsecs * 1e-9 and apply the scalar rule. -/
def parse_time_stamp (secs nsecs : ℤ) (in_array : Option NpArray) : NpArray :=
  parse_scalar ((secs : ℚ) + (nsecs : ℚ) * (1 / 1000000000)) in_array

/-- rosbag_parser.parse_array: the incoming array.array is converted to a
1-d numpy array; empty-and-absent gives None, absent seeds with the raw 1-d
array, empty-with-prior fabricates -1717.0 * ones(in_array.shape[1:]), and
the result is np.row_stack((in_array, np_array)). -/
def parse_array (value_array : List ℚ) (in_array : Option NpArray) :
    Except PyErr (Option NpArray) :=
  let np_array : NpArray := { shape := [value_array.length], data := value_array }
  match in_array with
  | none => if np_array.size = 0 then .ok none else .ok (some np_array)
  | some a =>
      let np_array := if np_array.size = 0 then sentinel_fill (a.shape.drop 1)
                      else np_array
      (np_row_stack a np_array).map some

/-- rosbag_parser.parse_ndarray: the NDArray message decodes to a dense
array; empty-and-absent gives None, absent seeds with np_array[np.newaxis],
empty-with-prior fabricates -1717.0 * ones(in_ndarray.shape[1:]), and the
result is np.append(in_ndarray, np_array[np.newaxis, ...], axis=0). -/
def parse_ndarray (value_nd : NpArray) (in_ndarray : Option NpArray) :
    Except PyErr (Option NpArray) :=
  match in_ndarray with
  | none =>
      if value_nd.size = 0 then .ok none
      else .ok (some { shape := 1 :: value_nd.shape, data := value_nd.data })
  | some p =>
      let np_array := if value_nd.size = 0 then sentinel_fill (p.shape.drop 1)
                      else value_nd
      (npAppendAxis0 p { shape := 1 :: np_array.shape, data := np_array.data }).map some

/-! The record model for rosbag_parser.parse_message. -/

/-- A decoded ROS field value: a std_msgs Header, a Number, an array.array,
an NDArray message (already dense), a nested message, or anything else
(which parse_message recurses on and which then fails for lack of
get_fields_and_field_types, an AttributeError). -/
inductive PyVal where
  | header (secs nsecs : ℤ)
  | num (v : ℚ)
  | arrv (xs : List ℚ)
  | nd (a : NpArray)
  | msg (fields : List (String × PyVal))
  | unsupported

/-- A value stored in a channel table: Python None (parse_array and
parse_ndarray return None for a first empty occurrence and parse_message
stores it), a numpy array, or a nested dict produced for a nested message. -/
inductive Entry where
  | none
  | arr (a : NpArray)
  | dict (d : List (String × Entry))

/-- A channel table: Python dict from field name to stored entry. -/
abbrev PyDict := List (String × Entry)

/-- in_dict.get(field, None): a missing key and a stored None are both read
back as None. -/
def dictGet (d : PyDict) (key : String) : Entry :=
  (lookupA d key).getD Entry.none

/-- Coerce a stored entry to the Optional prior array the leaf accumulators
expect. A nested dict where a numeric leaf is expected only arises for a
schema-inconsistent stream; it is modelled as a type error and no claim
depends on that branch. -/
def as_array_opt (e : Entry) : Except PyErr (Option NpArray) :=
  match e with
  | .none => .ok none
  | .arr a => .ok (some a)
  | .dict _ => .error .typeError

/-- Store an optional array the way parse_message does (in_dict[field] = val
stores None as a value). -/
def entryOfOpt (r : Option NpArray) : Entry :=
  match r with
  | Option.none => Entry.none
  | some a => Entry.arr a

/-- The key a field is stored under: a Header is always stored under the
reserved key stamp_s, every other value under the bare field name. -/
def keyOfField (f : String) (v : PyVal) : String :=
  match v with
  | .header _ _ => "stamp_s"
  | _ => f

/-- Whether a failing field leaves the caller-visible entry mutated: only a
nested message parsed against an existing dict object is aliased with the
caller's table, so only then do its partial updates stay visible. -/
def aliasDirty (v : PyVal) (old : Entry) : Bool :=
  match v, old with
  | .msg _, .dict _ => true
  | _, _ => false

mutual

/-- One field dispatch of rosbag_parser.parse_message, with the mutable
object state made explicit: the result is the entry value reachable from the
old entry after the call (the new value on success, the partially updated
object on failure) together with the raised exception, if any. -/
def parseValState (v : PyVal) (old : Entry) : Entry × Option PyErr :=
  match v with
  | .header secs nsecs =>
      match as_array_opt old with
      | .error e => (old, some e)
      | .ok arr => (.arr (parse_time_stamp secs nsecs arr), Option.none)
  | .num q =>
      match as_array_opt old with
      | .error e => (old, some e)
      | .ok arr => (.arr (parse_scalar q arr), Option.none)
  | .arrv xs =>
      match as_array_opt old with
      | .error e => (old, some e)
      | .ok arr =>
          match parse_array xs arr with
          | .error e => (old, some e)
          | .ok r => (entryOfOpt r, Option.none)
  | .nd a =>
      match as_array_opt old with
      | .error e => (old, some e)
      | .ok arr =>
          match parse_ndarray a arr with
          | .error e => (old, some e)
          | .ok r => (entryOfOpt r, Option.none)
  | .msg sub =>
      match old with
      | .arr a =>
          -- parse_message(raw_val, ndarray): the loop body calls .get on the
          -- ndarray and raises AttributeError; with no fields it returns the
          -- ndarray unchanged.
          if sub.isEmpty then (.arr a, Option.none)
          else (.arr a, some .attributeError)
      | .none =>
          match parseFieldsState sub [] with
          | (d', r) => (.dict d', r)
      | .dict dd =>
          match parseFieldsState sub dd with
          | (d', r) => (.dict d', r)
  | .unsupported => (old, some .attributeError)

/-- The field loop of rosbag_parser.parse_message with the mutable dict made
explicit: each processed field writes its entry into the dict in place; on an
exception the loop stops and the dict state reached so far is what the caller
still holds (plus the failing field's aliased partial updates, see
aliasDirty). -/
def parseFieldsState (fields : List (String × PyVal)) (d : PyDict) :
    PyDict × Option PyErr :=
  match fields with
  | [] => (d, Option.none)
  | (f, v) :: rest =>
      let key := keyOfField f v
      let old := dictGet d key
      match parseValState v old with
      | (e', Option.none) => parseFieldsState rest (setA d key e')
      | (e', some err) =>
          (if aliasDirty v old then setA d key e' else d, some err)

end

/-- rosbag_parser.parse_message with its in_dict parameter (None becomes a
fresh empty dict): the final state of the dict object together with the
raised exception, if any. -/
def parse_message_state (fields : List (String × PyVal))
    (in_dict : Option PyDict) : PyDict × Option PyErr :=
  parseFieldsState fields (in_dict.getD [])

/-- The caller-visible result of parse_message: the (mutated) dict on
success, the exception otherwise. -/
def parse_message_exc (fields : List (String × PyVal))
    (in_dict : Option PyDict) : Except PyErr PyDict :=
  match parse_message_state fields in_dict with
  | (d, Option.none) => .ok d
  | (_, some e) => .error e

/-! The stream reader of rosbag_parser.parse_topics. The container, schema
resolution and CDR decoding are external collaborators; a record is modelled
as its channel name together with its already-decoded field list. -/

/-- The accumulated per-channel tables (ros_data_dict). -/
abbrev TopicState := List (String × PyDict)

/-- One iteration of the parse_topics while loop, modelling the try/except
literally: ros_data_dict[topic] raises KeyError when the channel is unseen,
and the except KeyError arm reruns parse_message with a fresh empty dict. -/
def stepTopic (st : TopicState) (r : String × List (String × PyVal)) :
    Except PyErr TopicState :=
  let attempt : Except PyErr PyDict :=
    match lookupA st r.1 with
    | some t => parse_message_exc r.2 (some t)
    | none => .error .keyError
  match attempt with
  | .ok d => .ok (setA st r.1 d)
  | .error .keyError => (parse_message_exc r.2 (some [])).map (setA st r.1)
  | .error e => .error e

/-- rosbag_parser.parse_topics over a decoded record stream: fold the loop
body over the records in container order; an uncaught exception aborts the
whole read. -/
def parse_topics (records : List (String × List (String × PyVal))) :
    Except PyErr TopicState :=
  records.foldlM stepTopic []

/-! String helpers modelling the Python str operations used by units.py and
dict_utils.py. -/

/-- Substring containment on char lists: the needle occurs as a contiguous
run somewhere in the haystack. -/
def substrMem (needle : List Char) : List Char → Bool
  | [] => needle.isEmpty
  | c :: rest => needle.isPrefixOf (c :: rest) || substrMem needle rest

/-- Python needle in haystack: substring containment. -/
def strContains (haystack needle : String) : Bool :=
  substrMem needle.toList haystack.toList

/-- Python str.replace on char lists: replace every non-overlapping
occurrence of needle, scanning left to right; the replacement text is not
rescanned. Recursion is on an explicit step counter so the definition
computes by kernel reduction; every step consumes at least one character, so
a counter of length + 1 steps never runs out (the counter-0 arm is
unreachable from strReplace). An empty needle behaves differently in Python
(it interleaves the replacement); the modelled call sites only use nonempty
needles. -/
def replaceAllL (needle repl : List Char) : Nat → List Char → List Char
  | 0, l => l
  | _ + 1, [] => []
  | steps + 1, c :: rest =>
      if needle ≠ [] ∧ needle.isPrefixOf (c :: rest) then
        repl ++ replaceAllL needle repl steps ((c :: rest).drop needle.length)
      else
        c :: replaceAllL needle repl steps rest

/-- Python s.replace(old, new). -/
def strReplace (s old new : String) : String :=
  ⟨replaceAllL old.toList new.toList (s.toList.length + 1) s.toList⟩

/-- Python s.split(sep) / s.rsplit(sep) without maxsplit, on char lists:
split at every non-overlapping occurrence of sep, scanning left to right;
cur accumulates the current piece in reverse. Recursion is on an explicit
step counter exactly as in replaceAllL; the counter-0 arm is unreachable
from strSplitAll. -/
def splitAllAux (sep : List Char) : Nat → List Char → List Char → List (List Char)
  | 0, cur, _ => [cur.reverse]
  | _ + 1, cur, [] => [cur.reverse]
  | steps + 1, cur, c :: rest =>
      if sep ≠ [] ∧ sep.isPrefixOf (c :: rest) then
        cur.reverse :: splitAllAux sep steps [] ((c :: rest).drop sep.length)
      else
        splitAllAux sep steps (c :: cur) rest

/-- Python s.rsplit(sep=sep) with no maxsplit (identical to a full split).
Python raises on an empty separator; the modelled call site always passes
the nonempty separator. -/
def strSplitAll (s sep : String) : List String :=
  if sep.toList = [] then [s]
  else (splitAllAux sep.toList (s.toList.length + 1) [] s.toList).map fun l => ⟨l⟩

/-! units.py. -/

/-- The SI_PREFIX enumeration, in declaration order, with each token already
lowercased (item.name.lower()) and its power-of-ten factor. -/
def siPrefixList : List (String × ℚ) :=
  [("giga", 1000000000), ("mega", 1000000), ("kilo", 1000), ("hecto", 100),
   ("deka", 10), ("deci", 1 / 10), ("centi", 1 / 100), ("mili", 1 / 1000),
   ("micro", 1 / 1000000), ("nano", 1 / 1000000000)]

/-- units.si_prefix_to_base_from_str: scan the enumeration in order, keeping
the last token whose lowercase text occurs in the name; when one matched,
multiply the value by its factor and delete the token from the name with
str.replace (which removes every occurrence). -/
def si_prefix_to_base_from_str (name : String) (value : NpArray) :
    NpArray × String :=
  let found :=
    siPrefixList.foldl
      (fun acc p => if strContains name p.1 then some p else acc) none
  match found with
  | none => (value, name)
  | some (pfx, mult) => (npMul value mult, strReplace name pfx "")

/-! dict_utils.py. -/

/-- A dictionary of named numpy arrays (_DATA_DICT). -/
abbrev DataDict := List (String × NpArray)

/-- The expression val[:, 0].reshape((-1, 1)): take index 0 along axis 1 and
reshape to a single column. A 0-d or 1-d value raises IndexError (too many
indices), as does an empty axis 1. -/
def col0_reshaped (a : NpArray) : Except PyErr NpArray :=
  match a.shape with
  | [] => .error .indexError
  | [_] => .error .indexError
  | m :: n :: rest =>
      if n = 0 then .error .indexError
      else
        .ok { shape := [m * rest.prod, 1],
              data := (List.range m).flatMap
                fun i => (a.data.drop (i * (n * rest.prod))).take rest.prod }

/-- The body of the add_first_timestamps loop for one dict entry: rsplit the
key on the separator, unpack the pieces as exactly one or exactly two parts
(three or more raise ValueError from the unpacking), and compute the new key
together with val[:, 0].reshape((-1, 1)). -/
def first_ts_entry (p : String × NpArray) : Except PyErr (String × NpArray) := do
  let elems := strSplitAll p.1 "__"
  match elems with
  | [_] => do
      let c ← col0_reshaped p.2
      pure (p.1 ++ "0", c)
  | [base, idx] => do
      let c ← col0_reshaped p.2
      pure (base ++ "0__" ++ idx, c)
  | _ => .error .valueError

/-- dict_utils.add_first_timestamps: run the loop body over every entry,
collecting the duplicated entries into out_dict, and finally return
out_dict | data, so an original entry wins any collision. -/
def add_first_timestamps (data : DataDict) : Except PyErr DataDict := do
  let out ← data.foldlM
    (fun out p => do
      let kc ← first_ts_entry p
      pure (setA out kc.1 kc.2))
    []
  pure (unionA out data)

/-- dict_utils.add_si_base_keys_to_dict: convert every entry with
si_prefix_to_base_from_str into out_dict, then return out_dict | data. -/
def add_si_base_keys_to_dict (data : DataDict) : DataDict :=
  unionA
    (data.foldl
      (fun out p =>
        let r := si_prefix_to_base_from_str p.1 p.2
        setA out r.2 r.1)
      [])
    data

/-- np.degrees multiplies elementwise by the real factor 180 / pi, which is
irrational; the factor is abstracted as a parameter, and no claim depends on
its numeric value. -/
def np_degrees (c : ℚ) (a : NpArray) : NpArray := npMul a c

/-- dict_utils.add_deg_keys_from_rad: for every key containing the radian
marker, store the degree-converted value under the key with the marker
replaced, then return out_dict | data. -/
def add_deg_keys_from_rad (c : ℚ) (data : DataDict) : DataDict :=
  unionA
    (data.foldl
      (fun out p =>
        if strContains p.1 "_rad" then
          setA out (strReplace p.1 "_rad" "_deg") (np_degrees c p.2)
        else out)
      [])
    data

/-- dict_utils.preprocess_data, kept textually parallel to the source loop:
new_elem is first bound to the SI conversion of elem, then rebound to
add_deg_keys_from_rad(elem) - the source recomputes from elem, not from
new_elem - and only the second binding is appended. -/
def preprocess_data (c : ℚ) (data_tuple : List DataDict) : List DataDict :=
  data_tuple.foldl
    (fun new_data elem =>
      let new_elem := add_si_base_keys_to_dict elem
      let new_elem := add_deg_keys_from_rad c elem
      new_data ++ [new_elem])
    []

/-- set(elem.keys()): the key set of a table. -/
def keySet (d : DataDict) : Finset String := (d.map Prod.fst).toFinset

/-- dict_utils.merge_dictionaries: build the list of key sets, compare the
size of their union with the sum of their sizes, raise SharedKeyError on any
shortfall, else fold dict |= over the tables. With no tables at all,
set.union(*set_list) is a call of set.union with zero arguments and raises a
TypeError. -/
def merge_dictionaries (dict_tuple : List DataDict) : Except PyErr DataDict :=
  match dict_tuple with
  | [] => .error .typeError
  | _ =>
    let set_list := dict_tuple.map keySet
    let set_lengths := set_list.map Finset.card
    if (set_list.foldl (· ∪ ·) ∅).card = set_lengths.sum then
      .ok (dict_tuple.foldl unionA [])
    else .error .sharedKeyError

/-! Specification-side definitions, used only to state properties. Each is a
direct transcription of the specification's words, to be compared with the
source-derived definitions above. -/

/-- The key each field of a record is written under, in field order: the
bare field name, with a Header field renamed to stamp_s. -/
def writtenKeys (fields : List (String × PyVal)) : List String :=
  fields.map fun p => keyOfField p.1 p.2

/-- The last token of the SI enumeration whose lowercase text occurs in the
name: the first match when the enumeration is scanned in reverse. -/
def siLastMatch (name : String) : Option (String × ℚ) :=
  siPrefixList.reverse.find? fun p => strContains name p.1

/-- The specification's first-value duplication naming rule: insert a literal
0 immediately after the base name, that is before the first separator-
qualified part when the split has exactly two pieces, else at the end of the
whole name. -/
def dupName (k : String) : String :=
  match strSplitAll k "__" with
  | [base, idx] => base ++ "0__" ++ idx
  | _ => k ++ "0"

/-- The total form of val[:, 0].reshape((-1, 1)) on a well-shaped value: the
slice at index 0 of axis 1, reshaped to one column. -/
def col0spec (a : NpArray) : NpArray :=
  { shape := [a.shape.headD 0 * (a.shape.drop 2).prod, 1],
    data := (List.range (a.shape.headD 0)).flatMap
      fun i => (a.data.drop (i * (a.shape.drop 1).prod)).take (a.shape.drop 2).prod }

/-- The union of a list of key sets. -/
def listUnion (ss : List (Finset String)) : Finset String :=
  ss.foldr (· ∪ ·) ∅

/-! Lemmas about the association-list dict model. -/

theorem lookupA_setA {α : Type} (d : List (String × α)) (k : String) (v : α)
    (q : String) :
    lookupA (setA d k v) q = if q = k then some v else lookupA d q := by
  induction d with
  | nil =>
      by_cases h : q = k
      · simp [setA, lookupA, h]
      · simp [setA, lookupA, h, Ne.symm h]
  | cons p rest ih =>
      obtain ⟨k0, w⟩ := p
      by_cases h0 : k0 = k
      · subst h0
        by_cases hq : q = k0
        · simp [setA, lookupA, hq]
        · simp [setA, lookupA, hq, Ne.symm hq]
      · by_cases hq : k0 = q
        · subst hq
          simp [setA, lookupA, h0, Ne.symm h0]
        · simp [setA, lookupA, h0, hq, ih]

theorem mem_keysOf_setA {α : Type} (d : List (String × α)) (k : String) (v : α)
    (q : String) :
    q ∈ keysOf (setA d k v) ↔ q ∈ keysOf d ∨ q = k := by
  induction d with
  | nil => simp [setA, keysOf]
  | cons p rest ih =>
      obtain ⟨k0, w⟩ := p
      by_cases h0 : k0 = k
      · subst h0
        have hs : setA ((k0, w) :: rest) k0 v = (k0, v) :: rest := by
          simp [setA]
        rw [hs]
        simp only [keysOf, List.map_cons, List.mem_cons]
        tauto
      · simp only [setA, if_neg h0, keysOf, List.map_cons, List.mem_cons] at *
        tauto

theorem lookupA_eq_none_of_not_mem {α : Type} (d : List (String × α))
    (k : String) (h : k ∉ keysOf d) : lookupA d k = none := by
  induction d with
  | nil => rfl
  | cons p rest ih =>
      obtain ⟨k0, w⟩ := p
      simp only [keysOf, List.map_cons, List.mem_cons, not_or] at h
      have h1 : ¬ k0 = k := Ne.symm h.1
      simp only [lookupA, if_neg h1]
      exact ih h.2

theorem mem_of_lookupA_eq_some {α : Type} (d : List (String × α))
    (k : String) (v : α) (h : lookupA d k = some v) : k ∈ keysOf d := by
  induction d with
  | nil => simp [lookupA] at h
  | cons p rest ih =>
      obtain ⟨k0, w⟩ := p
      by_cases h0 : k0 = k
      · simp [keysOf, h0.symm]
      · simp only [lookupA, if_neg h0] at h
        simp only [keysOf, List.map_cons, List.mem_cons]
        exact Or.inr (ih h)

theorem setA_eq_append_of_not_mem {α : Type} (d : List (String × α))
    (k : String) (v : α) (h : k ∉ keysOf d) : setA d k v = d ++ [(k, v)] := by
  induction d with
  | nil => rfl
  | cons p rest ih =>
      obtain ⟨k0, w⟩ := p
      simp only [keysOf, List.map_cons, List.mem_cons, not_or] at h
      simp only [setA, if_neg (Ne.symm h.1), List.cons_append, List.cons.injEq,
        true_and]
      exact ih h.2

theorem lookupA_unionA {α : Type} (a b : List (String × α))
    (hb : (keysOf b).Nodup) (k : String) :
    lookupA (unionA a b) k = (lookupA b k).or (lookupA a k) := by
  induction b generalizing a with
  | nil => simp [unionA, lookupA]
  | cons p rest ih =>
      obtain ⟨k0, v0⟩ := p
      simp only [keysOf, List.map_cons, List.nodup_cons] at hb
      have step : unionA a ((k0, v0) :: rest) = unionA (setA a k0 v0) rest := rfl
      rw [step, ih (setA a k0 v0) hb.2]
      by_cases hq : k = k0
      · subst hq
        have hnone : lookupA rest k = none :=
          lookupA_eq_none_of_not_mem rest k hb.1
        simp [lookupA, hnone, lookupA_setA]
      · simp [lookupA, Ne.symm hq, lookupA_setA, hq]

/-! Lemmas about the parse_message field loop. -/

theorem parseFields_ok_keys (fields : List (String × PyVal)) :
    ∀ d d' : PyDict, parseFieldsState fields d = (d', Option.none) →
      (∀ k, k ∈ keysOf d' ↔ k ∈ keysOf d ∨ k ∈ writtenKeys fields)
      ∧ (∀ k, k ∉ writtenKeys fields → lookupA d' k = lookupA d k) := by
  induction fields with
  | nil =>
      intro d d' h
      simp only [parseFieldsState, Prod.mk.injEq] at h
      obtain ⟨h1, -⟩ := h
      subst h1
      simp [writtenKeys]
  | cons p rest ih =>
      obtain ⟨f, v⟩ := p
      intro d d' h
      simp only [parseFieldsState] at h
      rcases hv : parseValState v (dictGet d (keyOfField f v)) with ⟨e', r⟩
      rw [hv] at h
      cases r with
      | none =>
          have ihh := ih (setA d (keyOfField f v) e') d' h
          constructor
          · intro k
            rw [ihh.1 k, mem_keysOf_setA]
            simp only [writtenKeys, List.map_cons, List.mem_cons]
            rw [show (List.map (fun p => keyOfField p.1 p.2) rest) =
              writtenKeys rest from rfl]
            tauto
          · intro k hk
            simp only [writtenKeys, List.map_cons, List.mem_cons, not_or] at hk
            rw [ihh.2 k (by simpa [writtenKeys] using hk.2), lookupA_setA]
            simp [hk.1]
      | some err => simp at h

theorem parseFields_append (fs1 fs2 : List (String × PyVal)) :
    ∀ d d1 : PyDict, parseFieldsState fs1 d = (d1, Option.none) →
      parseFieldsState (fs1 ++ fs2) d = parseFieldsState fs2 d1 := by
  induction fs1 with
  | nil =>
      intro d d1 h
      simp only [parseFieldsState, Prod.mk.injEq] at h
      rw [List.nil_append, h.1]
  | cons p rest ih =>
      obtain ⟨f, v⟩ := p
      intro d d1 h
      simp only [List.cons_append, parseFieldsState] at h ⊢
      rcases hv : parseValState v (dictGet d (keyOfField f v)) with ⟨e', r⟩
      rw [hv] at h
      cases r with
      | none => exact ih (setA d (keyOfField f v) e') d1 h
      | some err => simp at h

/-! The only exception kinds each accumulator step can raise. -/

theorem except_map_error {α β : Type} (f : α → β) (x : Except PyErr α)
    (e : PyErr) (h : Except.map f x = .error e) : x = .error e := by
  cases x with
  | ok a => simp [Except.map] at h
  | error e0 => simpa [Except.map] using h

theorem as_array_opt_error (e : Entry) (err : PyErr)
    (h : as_array_opt e = .error err) : err = .typeError := by
  cases e with
  | none => simp [as_array_opt] at h
  | arr a => simp [as_array_opt] at h
  | dict d =>
      simp only [as_array_opt, Except.error.injEq] at h
      exact h.symm

theorem npAppendAxis0_error (a b : NpArray) (err : PyErr)
    (h : npAppendAxis0 a b = .error err) : err = .valueError := by
  unfold npAppendAxis0 at h
  split at h
  · simp at h
  · simp only [Except.error.injEq] at h
    exact h.symm

theorem parse_array_error (xs : List ℚ) (arr : Option NpArray) (err : PyErr)
    (h : parse_array xs arr = .error err) : err = .valueError := by
  cases arr with
  | none =>
      dsimp only [parse_array] at h
      split at h <;> simp at h
  | some a =>
      dsimp only [parse_array] at h
      exact npAppendAxis0_error _ _ _ (except_map_error _ _ _ h)

theorem parse_ndarray_error (a : NpArray) (arr : Option NpArray) (err : PyErr)
    (h : parse_ndarray a arr = .error err) : err = .valueError := by
  cases arr with
  | none =>
      dsimp only [parse_ndarray] at h
      split at h <;> simp at h
  | some p =>
      dsimp only [parse_ndarray] at h
      exact npAppendAxis0_error _ _ _ (except_map_error _ _ _ h)

/-- No operation reachable from the parse_message field loop raises a
KeyError: the possible exceptions are TypeError (mixed-kind prior),
ValueError (shape mismatch when stacking) and AttributeError (unsupported
field value, or a message parsed against an array prior). -/
theorem parseFields_no_keyError :
    ∀ (fields : List (String × PyVal)) (d : PyDict),
      (parseFieldsState fields d).2 ≠ some PyErr.keyError := by
  refine parseFieldsState.induct
    (fun v old => (parseValState v old).2 ≠ some PyErr.keyError)
    (fun fs d => (parseFieldsState fs d).2 ≠ some PyErr.keyError)
    ?_ ?_ ?_ ?_ ?_ ?_ ?_ ?_ ?_ ?_ ?_ ?_ ?_ ?_ ?_ ?_ ?_ ?_
  · intro old secs nsecs e h
    have he := as_array_opt_error old e h
    subst he
    simp [parseValState, h]
  · intro old secs nsecs arr h
    simp [parseValState, h]
  · intro old q e h
    have he := as_array_opt_error old e h
    subst he
    simp [parseValState, h]
  · intro old q arr h
    simp [parseValState, h]
  · intro old xs e h
    have he := as_array_opt_error old e h
    subst he
    simp [parseValState, h]
  · intro old xs arr h e hp
    have he := parse_array_error xs arr e hp
    subst he
    simp [parseValState, h, hp]
  · intro old xs arr h r hp
    simp [parseValState, h, hp]
  · intro old a e h
    have he := as_array_opt_error old e h
    subst he
    simp [parseValState, h]
  · intro old a arr h e hp
    have he := parse_ndarray_error a arr e hp
    subst he
    simp [parseValState, h, hp]
  · intro old a arr h r hp
    simp [parseValState, h, hp]
  · intro sub a hempty
    simp [parseValState, hempty]
  · intro sub a hempty
    simp [parseValState, hempty]
  · intro sub d' r hp ih
    rw [hp] at ih
    simp only [parseValState, hp]
    simpa using ih
  · intro sub dd d' r hp ih
    rw [hp] at ih
    simp only [parseValState, hp]
    simpa using ih
  · intro old
    simp [parseValState]
  · intro d
    simp [parseFieldsState]
  · intro d f v rest key old e' hv ih1 ih2
    simp only [parseFieldsState, hv]
    exact ih2
  · intro d f v rest key old e' err hv ih1
    rw [hv] at ih1
    simp only [parseFieldsState, hv]
    simpa using ih1

/-- Folding one more record: the loop of parse_topics processes records in
container order and an exception aborts the remaining records. -/
theorem foldlM_except_append {β γ : Type} (f : γ → β → Except PyErr γ)
    (l : List β) (x : β) :
    ∀ acc, (l ++ [x]).foldlM f acc = l.foldlM f acc >>= fun st => f st x := by
  induction l with
  | nil =>
      intro acc
      cases h : f acc x <;> simp [List.foldlM, h]
  | cons a l ih =>
      intro acc
      cases h : f acc a with
      | ok b => simp [List.foldlM, h, ih b]
      | error e => simp [List.foldlM, h]

/-- The try/except KeyError in parse_topics behaves exactly as running
parse_message against the channel's current table, an empty table when the
channel is unseen: parse_message never raises a KeyError itself, so the
except arm fires only for the ros_data_dict[topic] lookup. -/
theorem stepTopic_eq (st : TopicState) (r : String × List (String × PyVal)) :
    stepTopic st r =
      (parse_message_exc r.2 (some ((lookupA st r.1).getD []))).map (setA st r.1) := by
  obtain ⟨topic, fields⟩ := r
  dsimp only [stepTopic]
  cases hl : lookupA st topic with
  | none =>
      cases hp : parse_message_exc fields (some []) <;> simp [hl, hp]
  | some t =>
      cases hp : parse_message_exc fields (some t) with
      | ok d => simp [hl, hp, Except.map]
      | error e =>
          cases e with
          | keyError =>
              exfalso
              have hno := parseFields_no_keyError fields t
              unfold parse_message_exc parse_message_state at hp
              rcases hq : parseFieldsState fields ((some t).getD []) with ⟨d2, r2⟩
              rw [hq] at hp
              cases r2 with
              | none => simp at hp
              | some e2 =>
                  simp only [Except.error.injEq] at hp
                  subst hp
                  rw [show ((some t).getD [] : PyDict) = t from rfl] at hq
                  rw [hq] at hno
                  simp at hno
          | valueError => simp [hl, hp, Except.map]
          | attributeError => simp [hl, hp, Except.map]
          | typeError => simp [hl, hp, Except.map]
          | indexError => simp [hl, hp, Except.map]
          | sharedKeyError => simp [hl, hp, Except.map]

/-! Lemmas for the disjoint-merge check of merge_dictionaries. -/

theorem foldl_union_acc (ss : List (Finset String)) :
    ∀ acc, ss.foldl (· ∪ ·) acc = acc ∪ listUnion ss := by
  induction ss with
  | nil => intro acc; simp [listUnion]
  | cons s rest ih =>
      intro acc
      simp only [List.foldl_cons, listUnion, List.foldr_cons]
      rw [ih (acc ∪ s)]
      rw [show listUnion rest = rest.foldr (· ∪ ·) ∅ from rfl]
      exact Finset.union_assoc acc s _

theorem mem_listUnion (x : String) (ss : List (Finset String)) :
    x ∈ listUnion ss ↔ ∃ s ∈ ss, x ∈ s := by
  induction ss with
  | nil => simp [listUnion]
  | cons s rest ih =>
      simp only [listUnion, List.foldr_cons, Finset.mem_union]
      rw [show rest.foldr (· ∪ ·) ∅ = listUnion rest from rfl, ih]
      simp

theorem card_listUnion_le (ss : List (Finset String)) :
    (listUnion ss).card ≤ (ss.map Finset.card).sum := by
  induction ss with
  | nil => simp [listUnion]
  | cons s rest ih =>
      simp only [listUnion, List.foldr_cons, List.map_cons, List.sum_cons]
      calc (s ∪ rest.foldr (· ∪ ·) ∅).card
          ≤ s.card + (rest.foldr (· ∪ ·) ∅).card := Finset.card_union_le _ _
        _ ≤ s.card + (rest.map Finset.card).sum := by
            have := ih
            rw [show listUnion rest = rest.foldr (· ∪ ·) ∅ from rfl] at this
            omega

theorem card_listUnion_eq_iff (ss : List (Finset String)) :
    (listUnion ss).card = (ss.map Finset.card).sum ↔
      ss.Pairwise fun s t => Disjoint s t := by
  induction ss with
  | nil => simp [listUnion]
  | cons s rest ih =>
      have hstep : listUnion (s :: rest) = s ∪ listUnion rest := rfl
      rw [hstep, List.map_cons, List.sum_cons, List.pairwise_cons]
      constructor
      · intro h
        have h1 : (s ∪ listUnion rest).card ≤ s.card + (listUnion rest).card :=
          Finset.card_union_le _ _
        have h2 := card_listUnion_le rest
        have hc1 : (listUnion rest).card = (rest.map Finset.card).sum := by omega
        have hc2 : (s ∪ listUnion rest).card = s.card + (listUnion rest).card := by
          omega
        have hdisj : Disjoint s (listUnion rest) :=
          Finset.card_union_eq_card_add_card.1 hc2
        refine ⟨?_, ih.1 hc1⟩
        intro t ht
        refine hdisj.mono_right ?_
        intro x hx
        exact (mem_listUnion x rest).2 ⟨t, ht, hx⟩
      · intro h
        have hdisj : Disjoint s (listUnion rest) := by
          rw [Finset.disjoint_left]
          intro x hx hxu
          obtain ⟨t, ht, hxt⟩ := (mem_listUnion x rest).1 hxu
          exact (Finset.disjoint_left.1 (h.1 t ht)) hx hxt
        rw [Finset.card_union_of_disjoint hdisj, ih.2 h.2]

theorem lookupA_foldl_unionA {α : Type} (l : List (List (String × α)))
    (k : String) :
    ∀ acc, (∀ d ∈ l, (keysOf d).Nodup) →
      lookupA (l.foldl unionA acc) k =
        (l.reverse.findSome? fun d => lookupA d k).or (lookupA acc k) := by
  induction l with
  | nil => intro acc h; simp
  | cons d rest ih =>
      intro acc h
      simp only [List.foldl_cons]
      rw [ih (unionA acc d) fun x hx => h x (List.mem_cons_of_mem _ hx)]
      rw [lookupA_unionA acc d (h d (List.mem_cons_self _ _)) k]
      simp only [List.reverse_cons, List.findSome?_append]
      cases hdk : lookupA d k <;>
        cases hre : rest.reverse.findSome? fun d => lookupA d k <;>
          simp [List.findSome?, hdk, Option.or]

theorem findSome?_reverse_disjoint (l : List DataDict) (k : String)
    (h : l.Pairwise fun a b => Disjoint (keySet a) (keySet b)) :
    (l.reverse.findSome? fun d => lookupA d k) =
      l.findSome? fun d => lookupA d k := by
  induction l with
  | nil => rfl
  | cons d rest ih =>
      rw [List.pairwise_cons] at h
      simp only [List.reverse_cons, List.findSome?_append]
      rw [ih h.2]
      cases hdk : lookupA d k with
      | some v =>
          have hk : k ∈ keySet d :=
            List.mem_toFinset.2 (mem_of_lookupA_eq_some d k v hdk)
          have hnone : (rest.findSome? fun d => lookupA d k) = none := by
            rw [List.findSome?_eq_none_iff]
            intro t ht
            apply lookupA_eq_none_of_not_mem
            intro hmem
            exact (Finset.disjoint_left.1 (h.1 t ht)) hk (List.mem_toFinset.2 hmem)
          simp [List.findSome?, hdk, hnone, Option.or]
      | none =>
          cases hre : rest.findSome? fun d => lookupA d k <;>
            simp [List.findSome?, hdk, hre, Option.or]

theorem lookupA_isSome_of_mem {α : Type} (d : List (String × α)) (k : String)
    (h : k ∈ keysOf d) : ∃ v, lookupA d k = some v := by
  induction d with
  | nil => simp [keysOf] at h
  | cons p rest ih =>
      obtain ⟨k0, w⟩ := p
      by_cases h0 : k0 = k
      · exact ⟨w, by simp [lookupA, h0]⟩
      · simp only [keysOf, List.map_cons, List.mem_cons] at h
        rcases h with h | h
        · exact absurd h.symm h0
        · obtain ⟨v, hv⟩ := ih h
          exact ⟨v, by simp [lookupA, h0, hv]⟩

/-! Lemmas for add_first_timestamps. -/

theorem splitAllAux_ne_nil (sep : List Char) :
    ∀ (n : Nat) (cur l : List Char), splitAllAux sep n cur l ≠ [] := by
  intro n
  induction n with
  | zero => intro cur l; simp [splitAllAux]
  | succ n ih =>
      intro cur l
      cases l with
      | nil => simp [splitAllAux]
      | cons c rest =>
          simp only [splitAllAux]
          split
          · simp
          · exact ih (c :: cur) rest

theorem strSplitAll_ne_nil (s sep : String) : strSplitAll s sep ≠ [] := by
  unfold strSplitAll
  split
  · simp
  · simp [splitAllAux_ne_nil]

theorem first_ts_entry_spec (p : String × NpArray)
    (h1 : (strSplitAll p.1 "__").length ≤ 2)
    (h2 : col0_reshaped p.2 = .ok (col0spec p.2)) :
    first_ts_entry p = .ok (dupName p.1, col0spec p.2) := by
  rcases hs : strSplitAll p.1 "__" with - | ⟨x, - | ⟨y, - | ⟨z, tail⟩⟩⟩
  · exact absurd hs (strSplitAll_ne_nil p.1 "__")
  · simp [first_ts_entry, hs, h2, dupName]
  · simp [first_ts_entry, hs, h2, dupName]
  · rw [hs] at h1
    simp at h1

theorem aft_fold (data : DataDict) :
    ∀ out : DataDict,
      (∀ p ∈ data, first_ts_entry p = .ok (dupName p.1, col0spec p.2)) →
      (data.foldlM
        (fun out p => do
          let kc ← first_ts_entry p
          pure (setA out kc.1 kc.2))
        out : Except PyErr DataDict) =
        .ok (data.foldl (fun o p => setA o (dupName p.1) (col0spec p.2)) out) := by
  induction data with
  | nil => intro out _; rfl
  | cons p rest ih =>
      intro out h
      have hp := h p (List.mem_cons_self _ _)
      simp only [List.foldlM_cons, hp]
      exact ih (setA out (dupName p.1) (col0spec p.2))
        fun q hq => h q (List.mem_cons_of_mem _ hq)

theorem foldl_setA_fresh {α : Type} (l : List (String × α)) :
    ∀ out : List (String × α),
      (∀ p ∈ l, p.1 ∉ keysOf out) → (keysOf l).Nodup →
      l.foldl (fun o p => setA o p.1 p.2) out = out ++ l := by
  induction l with
  | nil => intro out _ _; simp
  | cons p rest ih =>
      intro out hfresh hnd
      simp only [List.foldl_cons]
      rw [setA_eq_append_of_not_mem out p.1 p.2 (hfresh p (List.mem_cons_self _ _))]
      simp only [keysOf, List.map_cons, List.nodup_cons] at hnd
      have hstep : ∀ q ∈ rest, q.1 ∉ keysOf (out ++ [p]) := by
        intro q hq
        have hq1 : q.1 ∉ keysOf out := hfresh q (List.mem_cons_of_mem _ hq)
        have hq2 : ¬ q.1 = p.1 := by
          intro hqp
          have hm : q.1 ∈ List.map Prod.fst rest := List.mem_map_of_mem Prod.fst hq
          rw [hqp] at hm
          exact hnd.1 hm
        simp only [keysOf, List.map_append, List.map_cons, List.map_nil,
          List.mem_append, List.mem_cons, List.not_mem_nil, or_false, not_or]
        exact ⟨by simpa [keysOf] using hq1, hq2⟩
      rw [ih (out ++ [p]) hstep (by simpa [keysOf] using hnd.2)]
      simp

/-! Lemma for the SI token scan. -/

theorem foldl_scan_last {α : Type} (P : α → Bool) (l : List α) :
    ∀ acc : Option α,
      l.foldl (fun a p => if P p then some p else a) acc =
        (l.reverse.find? P).or acc := by
  induction l with
  | nil => intro acc; simp [Option.or]
  | cons x rest ih =>
      intro acc
      simp only [List.foldl_cons, List.reverse_cons, List.find?_append]
      rw [ih]
      cases hP : P x <;> cases hre : rest.reverse.find? P <;>
        simp [List.find?, hP, hre, Option.or]

/-! The claims. -/

/-- C1 (corrected): parse_message does not produce a flat composed-key
table. Amended statement: on success each field is stored under its bare
name (a Header under stamp_s); the result's keys are exactly the prior
table's keys together with the record's written names, untouched prior
entries are carried over unchanged, and a nested record's result is a nested
sub-table stored under the bare field name (see the counterexample). -/
theorem parse_message_nested_bare_name_keys
    (fields : List (String × PyVal)) (in_dict : Option PyDict) (d' : PyDict)
    (h : parse_message_state fields in_dict = (d', Option.none)) :
    (∀ k, k ∈ keysOf d' ↔ k ∈ keysOf (in_dict.getD []) ∨ k ∈ writtenKeys fields)
    ∧ (∀ k, k ∉ writtenKeys fields →
        lookupA d' k = lookupA (in_dict.getD []) k) :=
  parseFields_ok_keys fields (in_dict.getD []) d' h

/-- Witness for C1 at a concrete record and prior table. -/
theorem parse_message_nested_bare_name_keys_witness :
    ("speed" ∈ keysOf [("old", Entry.arr ⟨[1], [5]⟩), ("speed", Entry.arr ⟨[1], [1]⟩)]
      ↔ "speed" ∈ keysOf [("old", Entry.arr ⟨[1], [5]⟩)]
        ∨ "speed" ∈ writtenKeys [("speed", PyVal.num 1)])
    ∧ lookupA [("old", Entry.arr ⟨[1], [5]⟩), ("speed", Entry.arr ⟨[1], [1]⟩)] "old"
        = lookupA [("old", Entry.arr ⟨[1], [5]⟩)] "old" :=
  ⟨(parse_message_nested_bare_name_keys [("speed", PyVal.num 1)]
      (some [("old", Entry.arr ⟨[1], [5]⟩)]) _ rfl).1 "speed",
   (parse_message_nested_bare_name_keys [("speed", PyVal.num 1)]
      (some [("old", Entry.arr ⟨[1], [5]⟩)]) _ rfl).2 "old" (by decide)⟩

/-- Counterexample for C1 as stated: a record with a nested field pose
containing a scalar x produces the entry pose mapped to a nested sub-table,
and no composed key pose/x exists. -/
theorem parse_message_nested_flat_key_counterexample :
    parse_message_exc [("pose", PyVal.msg [("x", PyVal.num 1)])] none =
      .ok [("pose", Entry.dict [("x", Entry.arr ⟨[1], [1]⟩)])]
    ∧ lookupA [("pose", Entry.dict [("x", Entry.arr ⟨[1], [1]⟩)])] "pose/x"
        = Option.none :=
  ⟨rfl, rfl⟩

/-- C2 (code_bug): the sentinel three-case rule holds for parse_ndarray but
parse_array raises a ValueError when the first empty occurrence follows a
single non-empty record of length at least two: the seed is stored as a raw
1-d array, so in_array.shape[1:] is the empty shape and the fabricated
sentinel is a scalar that row_stack cannot align with the 1-d prior. -/
theorem parse_array_sentinel_bug :
    parse_array [1, 2] none = .ok (some ⟨[2], [1, 2]⟩)
    ∧ parse_array [] (some ⟨[2], [1, 2]⟩) = .error .valueError
    ∧ parse_ndarray ⟨[2], [1, 2]⟩ none = .ok (some ⟨[1, 2], [1, 2]⟩)
    ∧ parse_ndarray ⟨[0], []⟩ (some ⟨[1, 2], [1, 2]⟩)
        = .ok (some ⟨[2, 2], [1, 2, -1717, -1717]⟩)
    ∧ parse_ndarray ⟨[2], [5, 6]⟩ (some ⟨[2, 2], [1, 2, -1717, -1717]⟩)
        = .ok (some ⟨[3, 2], [1, 2, -1717, -1717, 5, 6]⟩) :=
  ⟨rfl, rfl, rfl, rfl, rfl⟩

/-- C3 (confirmed): three records with a scalar field speed of 1.0, 2.0,
3.0 and a header with seconds 10, 11, 12 and zero nanoseconds produce
exactly the table with speed mapped to [1, 2, 3] and the reserved key
stamp_s mapped to [10, 11, 12]. -/
theorem parse_topics_end_to_end_scalar_header :
    parse_topics
      [("chan", [("speed", PyVal.num 1), ("header", PyVal.header 10 0)]),
       ("chan", [("speed", PyVal.num 2), ("header", PyVal.header 11 0)]),
       ("chan", [("speed", PyVal.num 3), ("header", PyVal.header 12 0)])] =
      .ok [("chan", [("speed", Entry.arr ⟨[3], [1, 2, 3]⟩),
                     ("stamp_s", Entry.arr ⟨[3], [10, 11, 12]⟩)])] := by
  have e1 : ((10 : ℤ) : ℚ) + ((0 : ℤ) : ℚ) * (1 / 1000000000) = 10 := by norm_num
  have e2 : ((11 : ℤ) : ℚ) + ((0 : ℤ) : ℚ) * (1 / 1000000000) = 11 := by norm_num
  have e3 : ((12 : ℤ) : ℚ) + ((0 : ℤ) : ℚ) * (1 / 1000000000) = 12 := by norm_num
  calc (parse_topics
      [("chan", [("speed", PyVal.num 1), ("header", PyVal.header 10 0)]),
       ("chan", [("speed", PyVal.num 2), ("header", PyVal.header 11 0)]),
       ("chan", [("speed", PyVal.num 3), ("header", PyVal.header 12 0)])])
      = .ok [("chan",
          [("speed", Entry.arr ⟨[3], [1, 2, 3]⟩),
           ("stamp_s", Entry.arr ⟨[3],
             [((10 : ℤ) : ℚ) + ((0 : ℤ) : ℚ) * (1 / 1000000000),
              ((11 : ℤ) : ℚ) + ((0 : ℤ) : ℚ) * (1 / 1000000000),
              ((12 : ℤ) : ℚ) + ((0 : ℤ) : ℚ) * (1 / 1000000000)]⟩)])] := rfl
    _ = .ok [("chan", [("speed", Entry.arr ⟨[3], [1, 2, 3]⟩),
                       ("stamp_s", Entry.arr ⟨[3], [10, 11, 12]⟩)])] := by
        rw [e1, e2, e3]

/-- C4 (corrected): the disjoint-merge contract holds for every NONEMPTY
collection of tables: SharedKeyError is raised exactly when two tables share
a key (the sum-of-sizes versus union-size check), and a disjoint collection
merges to the plain key union with values carried over. The empty
collection, excluded here, raises a TypeError instead (see the
counterexample): set.union called with no arguments. -/
theorem merge_dictionaries_nonempty_disjoint_spec (l : List DataDict)
    (hne : l ≠ []) (hnd : ∀ d ∈ l, (keysOf d).Nodup) :
    ((merge_dictionaries l = .error .sharedKeyError) ↔
        ¬ l.Pairwise fun a b => Disjoint (keySet a) (keySet b))
    ∧ ((l.Pairwise fun a b => Disjoint (keySet a) (keySet b)) →
        ∃ m, merge_dictionaries l = .ok m ∧
          ∀ k, lookupA m k = l.findSome? fun d => lookupA d k) := by
  obtain ⟨d0, rest, rfl⟩ : ∃ d0 rest, l = d0 :: rest := by
    cases l with
    | nil => exact absurd rfl hne
    | cons a b => exact ⟨a, b, rfl⟩
  have hcond : ((((d0 :: rest).map keySet).foldl (· ∪ ·) ∅).card =
      (((d0 :: rest).map keySet).map Finset.card).sum) ↔
      (d0 :: rest).Pairwise fun a b => Disjoint (keySet a) (keySet b) := by
    rw [foldl_union_acc, Finset.empty_union, card_listUnion_eq_iff,
      List.pairwise_map]
  have hmerge : merge_dictionaries (d0 :: rest) =
      (if (((d0 :: rest).map keySet).foldl (· ∪ ·) ∅).card =
          (((d0 :: rest).map keySet).map Finset.card).sum then
        .ok ((d0 :: rest).foldl unionA [])
      else .error .sharedKeyError) := rfl
  by_cases hp : (d0 :: rest).Pairwise fun a b => Disjoint (keySet a) (keySet b)
  · have hc := hcond.2 hp
    rw [hmerge, if_pos hc]
    constructor
    · constructor
      · intro habs; simp at habs
      · intro habs; exact absurd hp habs
    · intro _
      refine ⟨_, rfl, ?_⟩
      intro k
      rw [lookupA_foldl_unionA (d0 :: rest) k [] hnd,
        findSome?_reverse_disjoint (d0 :: rest) k hp]
      cases hf : List.findSome? (fun d => lookupA d k) (d0 :: rest) <;>
        simp [Option.or, lookupA, hf]
  · have hc : ¬ (((d0 :: rest).map keySet).foldl (· ∪ ·) ∅).card =
        (((d0 :: rest).map keySet).map Finset.card).sum :=
      fun hcc => hp (hcond.1 hcc)
    rw [hmerge, if_neg hc]
    constructor
    · exact ⟨fun _ => hp, fun _ => rfl⟩
    · intro hpp; exact absurd hpp hp

/-- Witness for C4 at two concrete disjoint tables. -/
theorem merge_dictionaries_nonempty_disjoint_spec_witness :
    ∃ m, merge_dictionaries [[("a", ⟨[1], [1]⟩)], [("b", ⟨[1], [2]⟩)]] = .ok m ∧
      ∀ k, lookupA m k =
        List.findSome? (fun d => lookupA d k)
          [[("a", (⟨[1], [1]⟩ : NpArray))], [("b", ⟨[1], [2]⟩)]] :=
  (merge_dictionaries_nonempty_disjoint_spec
      [[("a", ⟨[1], [1]⟩)], [("b", ⟨[1], [2]⟩)]]
      (by simp) (by decide)).2 (by decide)

/-- Counterexample for C4 as stated: the empty collection has no shared key
and is vacuously pairwise disjoint, yet merge_dictionaries raises a
TypeError (set.union with zero arguments) instead of returning the empty
union. -/
theorem merge_dictionaries_empty_counterexample :
    merge_dictionaries [] = .error .typeError
    ∧ PyErr.typeError ≠ PyErr.sharedKeyError
    ∧ ([] : List DataDict).Pairwise fun a b => Disjoint (keySet a) (keySet b) :=
  ⟨rfl, by decide, List.Pairwise.nil⟩

/-- C5 (corrected): the scan applies the last token of the enumeration order
whose lowercase text occurs in the name and multiplies every value by its
factor, but the removal is str.replace, which removes EVERY textual
occurrence of the token, not only the first. -/
theorem si_prefix_last_match_removes_every_occurrence
    (name : String) (value : NpArray) :
    si_prefix_to_base_from_str name value =
      match siLastMatch name with
      | none => (value, name)
      | some p => (npMul value p.2, strReplace name p.1 "") := by
  unfold si_prefix_to_base_from_str siLastMatch
  rw [foldl_scan_last (fun p => strContains name p.1) siPrefixList none]
  cases h : List.find? (fun p => strContains name p.1) siPrefixList.reverse with
  | none => simp [Option.or]
  | some p => obtain ⟨tok, m⟩ := p; simp [Option.or]

/-- Counterexample for C5 as stated: with the token kilo occurring twice in
the name, both occurrences are removed, leaving "_m" instead of the claimed
"kilo_m". -/
theorem si_prefix_first_occurrence_counterexample :
    si_prefix_to_base_from_str "kilokilo_m" ⟨[1], [1]⟩ =
      (npMul ⟨[1], [1]⟩ 1000, "_m")
    ∧ "_m" ≠ "kilo_m" :=
  ⟨rfl, by decide⟩

/-- C6 (corrected): the first-value duplication contract holds for tables
whose keys contain at most one separator occurrence (two or more make the
two-part unpacking raise ValueError, see the counterexample): each leaf
synthesizes the path with a literal 0 inserted after the base name, holding
the first recorded slice (index 0 along the trailing time axis, as one
column), and on a collision the original entry wins. -/
theorem add_first_timestamps_single_separator_spec (data : DataDict)
    (h1 : ∀ p ∈ data, (strSplitAll p.1 "__").length ≤ 2)
    (h2 : ∀ p ∈ data, col0_reshaped p.2 = .ok (col0spec p.2))
    (h3 : (data.map fun p => dupName p.1).Nodup)
    (h4 : (keysOf data).Nodup) :
    add_first_timestamps data =
      .ok (unionA (data.map fun p => (dupName p.1, col0spec p.2)) data)
    ∧ ∀ k, k ∈ keysOf data →
        lookupA (unionA (data.map fun p => (dupName p.1, col0spec p.2)) data) k
          = lookupA data k := by
  have hentry : ∀ p ∈ data, first_ts_entry p = .ok (dupName p.1, col0spec p.2) :=
    fun p hp => first_ts_entry_spec p (h1 p hp) (h2 p hp)
  have hfold := aft_fold data [] hentry
  have hmap : data.foldl (fun o p => setA o (dupName p.1) (col0spec p.2)) [] =
      data.map fun p => (dupName p.1, col0spec p.2) := by
    have hnodup : (keysOf (data.map fun p => (dupName p.1, col0spec p.2))).Nodup := by
      rw [show keysOf (data.map fun p => (dupName p.1, col0spec p.2)) =
        (data.map fun p => (dupName p.1, col0spec p.2)).map Prod.fst from rfl]
      rw [List.map_map]
      exact h3
    have hfresh : ∀ q ∈ (data.map fun p => (dupName p.1, col0spec p.2)),
        q.1 ∉ keysOf ([] : DataDict) := by
      intro q _
      simp [keysOf]
    have hthis := foldl_setA_fresh (data.map fun p => (dupName p.1, col0spec p.2))
      [] hfresh hnodup
    have h5 := List.foldl_map (fun p : String × NpArray => (dupName p.1, col0spec p.2))
      (fun o q => setA o q.1 q.2) data ([] : DataDict)
    exact h5.symm.trans (hthis.trans (List.nil_append _))
  constructor
  · unfold add_first_timestamps
    rw [hfold, hmap]
    rfl
  · intro k hk
    rw [lookupA_unionA _ data h4 k]
    obtain ⟨v, hv⟩ := lookupA_isSome_of_mem data k hk
    simp [hv, Option.or]

/-- Witness for C6 at a concrete table with one bare and one
separator-qualified key. -/
theorem add_first_timestamps_single_separator_spec_witness :
    add_first_timestamps [("vel", ⟨[1, 2], [7, 8]⟩), ("pos__left", ⟨[2, 2], [1, 2, 3, 4]⟩)] =
      .ok (unionA
        ([("vel", (⟨[1, 2], [7, 8]⟩ : NpArray)), ("pos__left", ⟨[2, 2], [1, 2, 3, 4]⟩)].map
          fun p => (dupName p.1, col0spec p.2))
        [("vel", ⟨[1, 2], [7, 8]⟩), ("pos__left", ⟨[2, 2], [1, 2, 3, 4]⟩)]) :=
  (add_first_timestamps_single_separator_spec
    [("vel", ⟨[1, 2], [7, 8]⟩), ("pos__left", ⟨[2, 2], [1, 2, 3, 4]⟩)]
    (by intro p hp
        simp only [List.mem_cons, List.not_mem_nil, or_false] at hp
        rcases hp with rfl | rfl <;> decide)
    (by intro p hp
        simp only [List.mem_cons, List.not_mem_nil, or_false] at hp
        rcases hp with rfl | rfl <;> rfl)
    (by decide) (by decide)).1

/-- Counterexample for C6 as stated: a leaf path with two separator
occurrences does not synthesize any duplicated path; the call raises a
ValueError and returns no table at all. -/
theorem add_first_timestamps_two_separators_counterexample :
    add_first_timestamps [("vel__left__x", ⟨[1, 1], [1]⟩)] = .error .valueError
    ∧ (add_first_timestamps [("vel__left__x", ⟨[1, 1], [1]⟩)]).isOk = false :=
  ⟨rfl, rfl⟩

/-- C7 (corrected): parse_message does not build a fresh table; it updates
the prior dict in place, one field at a time. Amended statement: the state
reached after the fields processed so far is exactly the state a run of the
remaining fields starts from, so a failure partway leaves the caller's table
equal to the table produced by the successfully processed prefix, not the
original (see the counterexample). -/
theorem parse_message_in_place_prefix (fs1 fs2 : List (String × PyVal))
    (d d1 : PyDict) (h : parseFieldsState fs1 d = (d1, Option.none)) :
    parseFieldsState (fs1 ++ fs2) d = parseFieldsState fs2 d1 :=
  parseFields_append fs1 fs2 d d1 h

/-- Witness for C7 at a concrete prefix and failing suffix. -/
theorem parse_message_in_place_prefix_witness :
    parseFieldsState ([("a", PyVal.num 2)] ++ [("b", PyVal.unsupported)])
        [("a", Entry.arr ⟨[1], [1]⟩)] =
      parseFieldsState [("b", PyVal.unsupported)] [("a", Entry.arr ⟨[2], [1, 2]⟩)] :=
  parse_message_in_place_prefix [("a", PyVal.num 2)] [("b", PyVal.unsupported)]
    [("a", Entry.arr ⟨[1], [1]⟩)] [("a", Entry.arr ⟨[2], [1, 2]⟩)] rfl

/-- Counterexample for C7 as stated: a record whose first field appends a
scalar and whose second field is unsupported fails with AttributeError, and
the caller's table now holds the appended array, not the original one. -/
theorem parse_message_mutates_prior_counterexample :
    parseFieldsState [("a", PyVal.num 2), ("b", PyVal.unsupported)]
        [("a", Entry.arr ⟨[1], [1]⟩)] =
      ([("a", Entry.arr ⟨[2], [1, 2]⟩)], some .attributeError)
    ∧ lookupA [("a", Entry.arr ⟨[1], [1]⟩)] "a" = some (Entry.arr ⟨[1], [1]⟩)
    ∧ (⟨[2], [1, 2]⟩ : NpArray) ≠ ⟨[1], [1]⟩ :=
  ⟨rfl, rfl, by decide⟩

/-- C8 (confirmed): every accumulation failure of a record surfaces to the
caller of parse_topics unchanged: processing one more record is exactly
parse_message run against the channel's current table (the empty table only
when the channel is unseen), with the error propagated by the monadic bind;
no error path discards a channel's accumulated table. The except KeyError
arm can fire only for the first-sight channel lookup because parse_message
never raises KeyError (parseFields_no_keyError). -/
theorem parse_topics_surfaces_every_failure
    (records : List (String × List (String × PyVal)))
    (r : String × List (String × PyVal)) :
    parse_topics (records ++ [r]) =
      parse_topics records >>= fun st =>
        (parse_message_exc r.2 (some ((lookupA st r.1).getD []))).map
          (setA st r.1) := by
  unfold parse_topics
  rw [foldlM_except_append]
  simp only [stepTopic_eq]

/-- C9 (code_bug): preprocess_data discards the SI conversion: the source
rebinds new_elem from elem when computing the degree columns, so the
returned table for a prefixed input is unchanged even though
add_si_base_keys_to_dict would have added the base-unit column. -/
theorem preprocess_data_discards_si_conversion (c : ℚ) (a : NpArray) :
    preprocess_data c [[("mili_v", a)]] = [[("mili_v", a)]]
    ∧ add_si_base_keys_to_dict [("mili_v", a)] =
        [("_v", npMul a (1 / 1000)), ("mili_v", a)] :=
  ⟨rfl, rfl⟩

/-- C10 (confirmed): a table whose key contains two separator occurrences
makes add_first_timestamps raise ValueError from unpacking the three split
parts into exactly two names. -/
theorem add_first_timestamps_multi_separator_raises :
    add_first_timestamps [("a__b__c", ⟨[1, 1], [1]⟩)] = .error .valueError :=
  rfl
